import Mathlib

/-!
A shallow embedding of the `event_channel` header (std::any revision, the
final design in `include/event_channel.h`): the event encoder
(`make_event` / `event_type_index` / `event_cast`), the two dispatch
policies, the dual pending/active subscriber registry, the worker-loop
iteration (swap events, merge pending into active, dispatch), the idle
policies, the unsubscribe forms, and the move-only unsubscribe token.

C++ `std::map` containers are modelled as association lists with uniquely
keyed entries; iteration order of handlers is implementation-defined in the
source and no theorem below depends on it.  Machine addresses and hash
codes appear only as opaque `Nat` inputs to the tag formulas.
-/

set_option autoImplicit false

namespace EventChannel

/-- Base C++ value types that can appear as `send` arguments in the model. -/
inductive Ty
  | int
  | uint
  | str
  | boolean
  | chr
deriving DecidableEq

/-- An argument type as written at a call/subscription site: a base type
    possibly wrapped in a reference or const-reference qualifier, the way
    template argument deduction sees it. -/
inductive ArgTy
  | plain (t : Ty)
  | lref (t : Ty)
  | clref (t : Ty)
  | rref (t : Ty)
deriving DecidableEq

/-- C++ `std::decay_t`, as applied by `std::make_tuple` to each argument
    type: references and cv-qualifiers are stripped. -/
def ArgTy.decay : ArgTy → Ty
  | .plain t => t
  | .lref t => t
  | .clref t => t
  | .rref t => t

/-- detail::event_type_index&lt;Args...&gt;(): `typeid(make_tuple_type_t<Args...>)`,
    where `make_tuple_type_t<Args...>` is `std::tuple<std::decay_t<Args>...>`
    (the return type of `std::make_tuple<Args...>`).  Two type indices are
    equal exactly when the decayed tuples are the same type, so the key is
    the ordered list of decayed argument types. -/
def event_type_index (args : List ArgTy) : List Ty :=
  args.map ArgTy.decay

/-- Lookup in an association list, modelling `std::map::find` /
    `std::map::at` (entries are uniquely keyed in every reachable state). -/
def lookupA {α β : Type} [DecidableEq α] : List (α × β) → α → Option β
  | [], _ => none
  | (k, v) :: rest, key => if k = key then some v else lookupA rest key

/-- Insert-or-overwrite, modelling assignment through `std::map::operator[]`. -/
def setA {α β : Type} [DecidableEq α] : List (α × β) → α → β → List (α × β)
  | [], key, v => [(key, v)]
  | (k, w) :: rest, key, v =>
      if k = key then (k, v) :: rest else (k, w) :: setA rest key v

/-- Insert-if-absent, modelling `std::map::insert` (which keeps an existing
    entry with the same key). -/
def insertKeepA {α β : Type} [DecidableEq α] (m : List (α × β)) (key : α) (v : β) :
    List (α × β) :=
  match lookupA m key with
  | some _ => m
  | none => m ++ [(key, v)]

/-- Erase by key, modelling `std::map::erase(key)`. -/
def eraseA {α β : Type} [DecidableEq α] (m : List (α × β)) (key : α) : List (α × β) :=
  m.filter (fun p => decide (p.1 ≠ key))

/-- An event: the opaque `std::any` box.  `std::any` remembers the dynamic
    type of its contents (`any::type()`), here the decayed tuple type `key`,
    alongside the boxed tuple of argument values, modelled opaquely. -/
structure Event where
  key : List Ty
  payload : List Int
deriving DecidableEq

/-- detail::make_event(args...): box `make_tuple(args...)` in a `std::any`
    whose dynamic type is `make_tuple_type_t<Args...>`. -/
def make_event (args : List ArgTy) (vals : List Int) : Event :=
  ⟨event_type_index args, vals⟩

/-- The failure raised by `std::any_cast` on a dynamic-type mismatch. -/
inductive CastErr
  | badAnyCast
deriving DecidableEq

/-- std::any_cast&lt;T&gt;(event) at tuple type `target`: succeeds with the boxed
    value exactly when the box's dynamic type equals `target`, otherwise
    throws `std::bad_any_cast`. -/
def any_cast (target : List Ty) (e : Event) : Except CastErr (List Int) :=
  if e.key = target then .ok e.payload else .error .badAnyCast

/-- detail::event_cast&lt;Args...&gt;(event):
    `std::any_cast<make_tuple_type_t<Args...>>(event)`. -/
def event_cast (args : List ArgTy) (e : Event) : Except CastErr (List Int) :=
  any_cast (event_type_index args) e

/-- How a stored handler closure reaches its user callback: `strong` for
    free functions, raw-pointer member functions and opaque callables
    (invoked unconditionally), `weak obj` for a member function reached
    through a `std::weak_ptr` to the object identified by `obj`
    (invoked only if `w.lock()` succeeds, i.e. `obj` is still alive). -/
inductive HandlerKind
  | strong
  | weak (obj : Nat)
deriving DecidableEq

/-- A stored handler closure (`detail::handler_t`): the decayed tuple type
    it was subscribed with (the type its `event_cast` targets), an opaque
    identity `fid` for the user callback body, and its ownership kind. -/
structure Handler where
  key : List Ty
  fid : Nat
  kind : HandlerKind
deriving DecidableEq

/-- An observable handler invocation: which tag and callback ran, the tuple
    type it decoded at, and the argument values it received. -/
structure Invocation where
  tag : Nat
  key : List Ty
  fid : Nat
  payload : List Int
deriving DecidableEq

/-- detail::tagged_handlers_t: handlers keyed by their tags. -/
abbrev Bucket := List (Nat × Handler)

/-- detail::dispatchers_t: tagged handler buckets keyed by event type index. -/
abbrev Dispatchers := List (List Ty × Bucket)

/-- Run one stored handler closure on one event, as the lambdas built in
    `channel::subscribe` do: the weak form first tries `w.lock()` and
    silently returns if the object is dead; otherwise the closure
    `event_cast`s the event at its own tuple type and applies the callback.
    `alive` lists the object identities whose `weak_ptr`s still lock. -/
def runHandler (alive : List Nat) (tag : Nat) (h : Handler) (e : Event) :
    Except CastErr (Option Invocation) :=
  match h.kind with
  | .strong => (any_cast h.key e).map (fun p => some ⟨tag, h.key, h.fid, p⟩)
  | .weak obj =>
      if obj ∈ alive then
        (any_cast h.key e).map (fun p => some ⟨tag, h.key, h.fid, p⟩)
      else
        .ok none

/-- Serially run every handler of one bucket on one event, in bucket order,
    as the inner loop of `dispatch_policy::sequential::dispatch` does; a
    thrown `bad_any_cast` propagates and stops the loop. -/
def runBucket (alive : List Nat) (b : Bucket) (e : Event) :
    Except CastErr (List Invocation) :=
  match b with
  | [] => .ok []
  | (tag, h) :: rest => do
      let r ← runHandler alive tag h e
      let rs ← runBucket alive rest e
      match r with
      | some inv => pure (inv :: rs)
      | none => pure rs

/-- The error raised by `dispatchers.at(event.type())` when the event's type
    key has no bucket (`std::out_of_range`), or a handler's propagated cast
    failure. -/
inductive DispatchErr
  | outOfRange
  | castFailure (e : CastErr)
deriving DecidableEq

/-- Dispatch one event under the sequential policy: `dispatchers.at(...)`
    then invoke each handler of the bucket. -/
def dispatchEvent (alive : List Nat) (d : Dispatchers) (e : Event) :
    Except DispatchErr (List Invocation) :=
  match lookupA d e.key with
  | none => .error .outOfRange
  | some b => (runBucket alive b e).mapError .castFailure

/-- dispatch_policy::sequential::dispatch: for each event in the batch, look
    its bucket up with `std::map::at` and invoke every handler serially.
    Returns one invocation list per event. -/
def sequentialDispatch (alive : List Nat) (events : List Event) (d : Dispatchers) :
    Except DispatchErr (List (List Invocation)) :=
  match events with
  | [] => .ok []
  | e :: rest => do
      let i ← dispatchEvent alive d e
      let is ← sequentialDispatch alive rest d
      pure (i :: is)

/-- Run one bucket the way the parallel policy's tasks observably do: an
    exception inside a task is stored in its `std::future` and discarded by
    `wait()`, so a failing handler contributes no invocation and no error.
    Task completion order is unspecified; the list fixes bucket order and no
    theorem depends on it. -/
def runBucketPar (alive : List Nat) (b : Bucket) (e : Event) : List Invocation :=
  b.filterMap (fun p =>
    match runHandler alive p.1 p.2 e with
    | .ok (some inv) => some inv
    | _ => none)

/-- dispatch_policy::parallel::dispatch: for each event, `dispatchers.at(...)`
    on the dispatching thread (so a missing bucket still faults there), one
    async task per handler, then a per-event barrier of `wait()` calls. -/
def parallelDispatch (alive : List Nat) (events : List Event) (d : Dispatchers) :
    Except DispatchErr (List (List Invocation)) :=
  match events with
  | [] => .ok []
  | e :: rest =>
    match lookupA d e.key with
    | none => .error .outOfRange
    | some b => (parallelDispatch alive rest d).map (fun is => runBucketPar alive b e :: is)

/-- The channel's state: the run flag, whether the worker `std::thread` is
    joinable (a default-constructed or already-joined thread is not), the
    `IdlePolicy` template parameter fixed at construction
    (`idleKeep = (IdlePolicy == idle_policy::keep_events)`), the callable tag
    counter, the event queue, and the pending and active registries.  Field
    names follow the source members. -/
structure channel where
  processing_ : Bool
  threadJoinable : Bool
  idleKeep : Bool
  generic_handler_tagger_ : Nat
  events_ : List Event
  dispatchers_pending_ : Dispatchers
  dispatchers_ : Dispatchers
deriving DecidableEq

/-- channel::start(): if already processing, return without spawning;
    otherwise set the flag and spawn the worker thread. -/
def channel.start (c : channel) : channel :=
  if c.processing_ then c
  else { c with processing_ := true, threadJoinable := true }

/-- The channel constructor: `processing_(false)`, `generic_handler_tagger_(0)`,
    empty queue and registries, non-joinable default thread, then `start()`. -/
def mkChannel (idleKeep : Bool) : channel :=
  channel.start ⟨false, false, idleKeep, 0, [], [], []⟩

/-- The fault raised by joining a non-joinable `std::thread`
    (`std::system_error` with `invalid_argument`). -/
inductive ThreadErr
  | joinNotJoinable
deriving DecidableEq

/-- channel::stop(): under the events lock clear the queue when the idle
    policy is `drop_events` and reset the run flag; then notify the worker
    and unconditionally `run_t_.join()`, which faults when the thread was
    already joined (or never spawned). -/
def channel.stop (c : channel) : Except ThreadErr channel :=
  let c1 := { c with
    events_ := if c.idleKeep then c.events_ else [],
    processing_ := false }
  if c1.threadJoinable then .ok { c1 with threadJoinable := false }
  else .error .joinNotJoinable

/-- The shared body of every subscribe overload:
    `dispatchers_pending_[key][tag] = handler` — `operator[]` creates the
    bucket when absent, and the inner assignment overwrites an entry already
    present under the same tag. -/
def channel.registerHandler (c : channel) (key : List Ty) (tag : Nat) (h : Handler) :
    channel :=
  let bucket := (lookupA c.dispatchers_pending_ key).getD []
  { c with dispatchers_pending_ := setA c.dispatchers_pending_ key (setA bucket tag h) }

/-- detail::make_tag(p, f): `reinterpret_cast<handler_tag_t>(p) +
    typeid(f).hash_code() * 37`, over opaque address and hash inputs. -/
def make_tag_mem (paddr fhash : Nat) : Nat :=
  paddr + fhash * 37

/-- channel::subscribe(R (*f)(Args...)): tag is the function's address
    `faddr`; the stored closure casts at `make_tuple_type_t<Args...>` and
    calls `f` (identified by `fid`). -/
def channel.subscribe_fn (c : channel) (args : List ArgTy) (faddr fid : Nat) : channel :=
  c.registerHandler (event_type_index args) faddr ⟨event_type_index args, fid, .strong⟩

/-- channel::subscribe(T* p, R (T::*f)(Args...)): tag from `make_tag(p, f)`;
    the closure captures the raw pointer and invokes unconditionally. -/
def channel.subscribe_mem (c : channel) (args : List ArgTy) (paddr fhash fid : Nat) :
    channel :=
  c.registerHandler (event_type_index args) (make_tag_mem paddr fhash)
    ⟨event_type_index args, fid, .strong⟩

/-- channel::subscribe(std::shared_ptr&lt;T&gt; const&amp; p, R (T::*f)(Args...)):
    same tag formula on `p.get()`, but the closure stores only
    `std::weak_ptr<T>(p)` and invokes only if it locks. -/
def channel.subscribe_weak (c : channel) (args : List ArgTy) (paddr fhash fid : Nat) :
    channel :=
  c.registerHandler (event_type_index args) (make_tag_mem paddr fhash)
    ⟨event_type_index args, fid, .weak paddr⟩

/-- channel::subscribe(F f): tag is the current `generic_handler_tagger_`,
    which is post-incremented and returned to the caller. -/
def channel.subscribe_callable (c : channel) (args : List ArgTy) (fid : Nat) :
    channel × Nat :=
  (({ c with generic_handler_tagger_ := c.generic_handler_tagger_ + 1 }).registerHandler
      (event_type_index args) c.generic_handler_tagger_
      ⟨event_type_index args, fid, .strong⟩,
    c.generic_handler_tagger_)

/-- The private channel::unsubscribe(event_type_index_t const&amp;,
    handler_tag_t const&amp;): if the active registry has a bucket for the key,
    erase the tag there; otherwise, if the pending registry has one, erase
    the tag there.  It never erases from both. -/
def channel.unsubscribe_index_tag (c : channel) (key : List Ty) (tag : Nat) : channel :=
  match lookupA c.dispatchers_ key with
  | some b => { c with dispatchers_ := setA c.dispatchers_ key (eraseA b tag) }
  | none =>
    match lookupA c.dispatchers_pending_ key with
    | some b =>
        { c with dispatchers_pending_ := setA c.dispatchers_pending_ key (eraseA b tag) }
    | none => c

/-- channel::unsubscribe(R (*f)(Args...)). -/
def channel.unsubscribe_fn (c : channel) (args : List ArgTy) (faddr : Nat) : channel :=
  c.unsubscribe_index_tag (event_type_index args) faddr

/-- channel::unsubscribe(T* p, R (T::*f)(Args...)). -/
def channel.unsubscribe_mem (c : channel) (args : List ArgTy) (paddr fhash : Nat) :
    channel :=
  c.unsubscribe_index_tag (event_type_index args) (make_tag_mem paddr fhash)

/-- channel::unsubscribe(handler_tag_t tag): erase the tag from every bucket
    of both registries. -/
def channel.unsubscribe_tag (c : channel) (tag : Nat) : channel :=
  { c with
    dispatchers_ := c.dispatchers_.map (fun p => (p.1, eraseA p.2 tag)),
    dispatchers_pending_ := c.dispatchers_pending_.map (fun p => (p.1, eraseA p.2 tag)) }

/-- channel::send(Args&amp;&amp;... args): under the events lock, if processing or
    the idle policy keeps events, append `make_event(args...)` to the queue
    and notify the worker; otherwise do nothing (the event is dropped). -/
def channel.send (c : channel) (args : List ArgTy) (vals : List Int) : channel :=
  if c.processing_ || c.idleKeep then
    { c with events_ := c.events_ ++ [make_event args vals] }
  else c

/-- One pending bucket merged into its active counterpart:
    `dispatchers_[key].insert(first, last)` — each pending entry is inserted
    only if its tag is absent, so an existing active entry is kept. -/
def mergeBucket (act pend : Bucket) : Bucket :=
  pend.foldl (fun b p => insertKeepA b p.1 p.2) act

/-- The worker's merge step: for every pending bucket,
    `dispatchers_[d.first].insert(...)` (`operator[]` creates an empty active
    bucket even for an empty pending bucket), then `dispatchers_pending_.clear()`. -/
def mergeInto (act pend : Dispatchers) : Dispatchers :=
  pend.foldl (fun d p => setA d p.1 (mergeBucket ((lookupA d p.1).getD []) p.2)) act

/-- One iteration of the worker loop in channel::start, taken when the
    channel is processing and the queue is non-empty: swap the whole queue
    into a local batch, merge pending subscribers into active, then run the
    dispatch policy (sequential here; the worker template instantiates one
    policy).  When stopped or idle the worker takes no iteration and the
    state is unchanged.  Returns the state afterwards and one invocation
    list per batched event. -/
def channel.processBatch (alive : List Nat) (c : channel) :
    Except DispatchErr (channel × List (List Invocation)) :=
  if c.processing_ && !c.events_.isEmpty then
    let merged := mergeInto c.dispatchers_ c.dispatchers_pending_
    (sequentialDispatch alive c.events_ merged).map
      (fun invs =>
        ({ c with events_ := [], dispatchers_pending_ := [], dispatchers_ := merged },
          invs))
  else .ok (c, [])

/-- The registry entry dispatch would use for `(key, tag)` after the next
    merge point: lookup in the active registry as it will stand once pending
    has been merged in. -/
def channel.registeredAt (c : channel) (key : List Ty) (tag : Nat) : Option Handler :=
  (lookupA (mergeInto c.dispatchers_ c.dispatchers_pending_) key).bind
    (fun b => lookupA b tag)

/-- Projection: the state after a worker iteration (the unchanged state if
    dispatch faulted). -/
def channel.afterBatch (alive : List Nat) (c : channel) : channel :=
  match c.processBatch alive with
  | .ok (c1, _) => c1
  | .error _ => c

/-- Projection: the per-event invocation lists a worker iteration produced
    (empty if dispatch faulted). -/
def channel.invocationsOf (alive : List Nat) (c : channel) : List (List Invocation) :=
  match c.processBatch alive with
  | .ok (_, invs) => invs
  | .error _ => []

/-- Whether an `Except` computation succeeded. -/
def isOkE {ε α : Type} : Except ε α → Bool
  | .ok _ => true
  | .error _ => false

/-- Whether a handler's invocation is not blocked by object lifetime:
    strong handlers always run; a weak handler runs only when its target
    object is still alive. -/
def handlerLive (alive : List Nat) (h : Handler) : Bool :=
  match h.kind with
  | .strong => true
  | .weak obj => decide (obj ∈ alive)

/-- Well-formedness of one registry: buckets are uniquely keyed, and inside
    each bucket tags are unique and every stored closure casts at its
    bucket's tuple type.  Every state the channel operations reach from
    `mkChannel` satisfies this; theorems take it as a hypothesis and
    witnesses discharge it by evaluation. -/
def dispWF (d : Dispatchers) : Prop :=
  (d.map Prod.fst).Nodup ∧
    ∀ p ∈ d, ((p.2.map Prod.fst).Nodup ∧ ∀ q ∈ p.2, (q.2 : Handler).key = p.1)

instance (d : Dispatchers) : Decidable (dispWF d) := by
  unfold dispWF; infer_instance

/-- Well-formedness of a channel state: both registries are well-formed. -/
def chanWF (c : channel) : Prop :=
  dispWF c.dispatchers_pending_ ∧ dispWF c.dispatchers_

instance (c : channel) : Decidable (chanWF c) := by
  unfold chanWF; infer_instance

/-- Swap the contents of two positions, modelling `std::swap(f_, other.f_)`
    between two tokens.  Out-of-range positions leave the list unchanged
    (no real move ever is out of range). -/
def swapAt (s : List (Option Nat)) (i j : Nat) : List (Option Nat) :=
  if h : i < s.length ∧ j < s.length then
    (s.set i (s.get ⟨j, h.2⟩)).set j (s.get ⟨i, h.1⟩)
  else s

/-- A population of `token` values: `toks` holds each live token's captured
    closure `f_` (`none` is the default no-op lambda), `fired` records the
    actions already run by destructors. -/
structure TokenSys where
  toks : List (Option Nat)
  fired : List Nat
deriving DecidableEq

/-- The operations a caller can perform on tokens. -/
inductive TokenOp
  | moveCtor (src : Nat)
  | moveAssign (dst src : Nat)
  | destroy (i : Nat)
deriving DecidableEq

/-- Apply one token operation, following the source: the move constructor
    default-initializes `f_` to the no-op lambda and swaps with the source;
    move assignment swaps the two `f_` members; the destructor runs `f_()`
    and the token ceases to exist. -/
def TokenSys.applyOp (sys : TokenSys) (op : TokenOp) : TokenSys :=
  match op with
  | .moveCtor src => ⟨swapAt (sys.toks ++ [none]) src sys.toks.length, sys.fired⟩
  | .moveAssign dst src => ⟨swapAt sys.toks dst src, sys.fired⟩
  | .destroy i =>
      match sys.toks[i]? with
      | some f => ⟨sys.toks.eraseIdx i, sys.fired ++ f.toList⟩
      | none => sys

/-- Apply a sequence of token operations in order. -/
def TokenSys.applyOps (sys : TokenSys) (ops : List TokenOp) : TokenSys :=
  ops.foldl TokenSys.applyOp sys

/-- How many times action `a` has run already, plus how many live tokens
    would still run it at destruction: the total number of times `a` ever
    runs once every remaining token is eventually destroyed. -/
def TokenSys.pendingAndFired (sys : TokenSys) (a : Nat) : Nat :=
  sys.fired.count a + sys.toks.count (some a)

deriving instance DecidableEq for Except

theorem lookupA_setA {α β : Type} [DecidableEq α] (m : List (α × β)) (key k : α) (v : β) :
    lookupA (setA m key v) k = if key = k then some v else lookupA m k := by
  induction m with
  | nil => simp [setA, lookupA]
  | cons p rest ih =>
    obtain ⟨k0, w⟩ := p
    by_cases h0 : k0 = key
    · subst h0
      simp only [setA, if_pos rfl, lookupA]
      by_cases hk : k0 = k
      · rw [if_pos hk, if_pos hk]
      · rw [if_neg hk, if_neg hk, if_neg hk]
    · simp only [setA, if_neg h0, lookupA]
      by_cases hk : k0 = k
      · subst hk
        have hks : ¬ key = k0 := fun hh => h0 hh.symm
        rw [if_pos rfl, if_neg hks, if_pos rfl]
      · rw [if_neg hk, ih]
        by_cases hkey : key = k
        · rw [if_pos hkey, if_pos hkey]
        · rw [if_neg hkey, if_neg hkey, if_neg hk]

theorem lookupA_append {α β : Type} [DecidableEq α] (m1 m2 : List (α × β)) (k : α) :
    lookupA (m1 ++ m2) k =
      match lookupA m1 k with
      | some v => some v
      | none => lookupA m2 k := by
  induction m1 with
  | nil => simp [lookupA]
  | cons p rest ih =>
    obtain ⟨k0, w⟩ := p
    by_cases hk : k0 = k <;> simp [lookupA, hk, ih]

theorem lookupA_insertKeepA {α β : Type} [DecidableEq α] (m : List (α × β)) (key k : α)
    (v : β) :
    lookupA (insertKeepA m key v) k =
      if key = k then some ((lookupA m key).getD v) else lookupA m k := by
  unfold insertKeepA
  cases hm : lookupA m key with
  | some w =>
    by_cases hk : key = k
    · subst hk; simp [hm]
    · simp [hk]
  | none =>
    rw [lookupA_append]
    by_cases hk : key = k
    · subst hk; simp [hm, lookupA]
    · have hkk : ¬ k = key := fun hh => hk hh.symm
      cases hl : lookupA m k with
      | some w => simp [hk]
      | none => simp [lookupA, hk, hkk]

theorem lookupA_eraseA {α β : Type} [DecidableEq α] (m : List (α × β)) (key k : α) :
    lookupA (eraseA m key) k = if key = k then none else lookupA m k := by
  induction m with
  | nil => simp [eraseA, lookupA]
  | cons p rest ih =>
    obtain ⟨k0, w⟩ := p
    simp only [eraseA, List.filter_cons] at ih ⊢
    by_cases h0 : k0 = key
    · subst h0
      rw [if_neg (by simp), ih]
      by_cases hk : k0 = k
      · rw [if_pos hk, if_pos hk]
      · rw [if_neg hk, if_neg hk]
        simp [lookupA, hk]
    · rw [if_pos (by simp [h0])]
      simp only [lookupA]
      by_cases hk : k0 = k
      · subst hk
        have hks : ¬ key = k0 := fun hh => h0 hh.symm
        rw [if_pos rfl, if_neg hks, if_pos rfl]
      · rw [if_neg hk, ih]
        by_cases hkey : key = k
        · rw [if_pos hkey, if_pos hkey]
        · rw [if_neg hkey, if_neg hkey, if_neg hk]

theorem mem_of_lookupA {α β : Type} [DecidableEq α] (m : List (α × β)) (k : α) (v : β)
    (h : lookupA m k = some v) : (k, v) ∈ m := by
  induction m with
  | nil => simp [lookupA] at h
  | cons p rest ih =>
    obtain ⟨k0, w⟩ := p
    simp only [lookupA] at h
    by_cases hk : k0 = k
    · rw [if_pos hk] at h
      injection h with h1
      subst hk; subst h1
      exact List.mem_cons_self _ _
    · rw [if_neg hk] at h
      exact List.mem_cons_of_mem _ (ih h)

theorem lookupA_eq_none_iff {α β : Type} [DecidableEq α] (m : List (α × β)) (k : α) :
    lookupA m k = none ↔ k ∉ m.map Prod.fst := by
  induction m with
  | nil => simp [lookupA]
  | cons p rest ih =>
    obtain ⟨k0, w⟩ := p
    simp only [lookupA, List.map_cons, List.mem_cons]
    by_cases hk : k0 = k
    · subst hk; simp
    · have hks : ¬ k = k0 := fun hh => hk hh.symm
      simp [hk, hks, ih]

theorem mem_setA {α β : Type} [DecidableEq α] (m : List (α × β)) (key : α) (v : β)
    (q : α × β) (h : q ∈ setA m key v) : q ∈ m ∨ q = (key, v) := by
  induction m with
  | nil => simpa [setA] using h
  | cons p rest ih =>
    obtain ⟨k0, w⟩ := p
    by_cases h0 : k0 = key
    · subst h0
      simp only [setA, if_pos rfl] at h
      rcases List.mem_cons.mp h with h1 | h1
      · exact Or.inr (by simpa using h1)
      · exact Or.inl (List.mem_cons_of_mem _ h1)
    · simp only [setA, if_neg h0] at h
      rcases List.mem_cons.mp h with h1 | h1
      · exact Or.inl (by simp [h1])
      · rcases ih h1 with h2 | h2
        · exact Or.inl (List.mem_cons_of_mem _ h2)
        · exact Or.inr h2

theorem nodup_keys_setA {α β : Type} [DecidableEq α] (m : List (α × β)) (key : α) (v : β)
    (h : (m.map Prod.fst).Nodup) : ((setA m key v).map Prod.fst).Nodup := by
  induction m with
  | nil => simp [setA]
  | cons p rest ih =>
    obtain ⟨k0, w⟩ := p
    simp only [List.map_cons, List.nodup_cons] at h
    by_cases h0 : k0 = key
    · subst h0; simpa [setA] using h
    · simp only [setA, if_neg h0, List.map_cons, List.nodup_cons]
      refine ⟨?_, ih h.2⟩
      intro hmem
      obtain ⟨q, hq, hq1⟩ := List.mem_map.mp hmem
      rcases mem_setA rest key v q hq with h1 | h1
      · exact h.1 (List.mem_map.mpr ⟨q, h1, hq1⟩)
      · subst h1
        exact h0 hq1.symm

theorem mem_insertKeepA {α β : Type} [DecidableEq α] (m : List (α × β)) (key : α) (v : β)
    (q : α × β) (h : q ∈ insertKeepA m key v) : q ∈ m ∨ q = (key, v) := by
  unfold insertKeepA at h
  cases hm : lookupA m key with
  | some w => rw [hm] at h; exact Or.inl h
  | none =>
    rw [hm] at h
    rcases List.mem_append.mp h with h1 | h1
    · exact Or.inl h1
    · exact Or.inr (by simpa using h1)

theorem nodup_keys_insertKeepA {α β : Type} [DecidableEq α] (m : List (α × β)) (key : α)
    (v : β) (h : (m.map Prod.fst).Nodup) :
    ((insertKeepA m key v).map Prod.fst).Nodup := by
  unfold insertKeepA
  cases hm : lookupA m key with
  | some w => exact h
  | none =>
    have hnm : key ∉ m.map Prod.fst := (lookupA_eq_none_iff m key).mp hm
    simp only [List.map_append, List.map_cons, List.map_nil]
    rw [List.nodup_append]
    refine ⟨h, List.nodup_singleton _, ?_⟩
    intro a ha hb
    simp only [List.mem_singleton] at hb
    subst hb
    exact hnm ha

theorem nodup_keys_eraseA {α β : Type} [DecidableEq α] (m : List (α × β)) (key : α)
    (h : (m.map Prod.fst).Nodup) : ((eraseA m key).map Prod.fst).Nodup := by
  have hsub : (eraseA m key).Sublist m := List.filter_sublist m
  exact (hsub.map Prod.fst).nodup h

theorem mergeBucket_cons (act : Bucket) (p : Nat × Handler) (rest : List (Nat × Handler)) :
    mergeBucket act (p :: rest) = mergeBucket (insertKeepA act p.1 p.2) rest := rfl

theorem lookupA_mergeBucket (act pend : Bucket) (t : Nat)
    (hnd : (pend.map Prod.fst).Nodup) :
    lookupA (mergeBucket act pend) t =
      match lookupA act t with
      | some v => some v
      | none => lookupA pend t := by
  induction pend generalizing act with
  | nil => cases h : lookupA act t <;> simp [mergeBucket, lookupA, h]
  | cons p rest ih =>
    obtain ⟨t0, h0⟩ := p
    simp only [List.map_cons, List.nodup_cons] at hnd
    rw [mergeBucket_cons, ih _ hnd.2, lookupA_insertKeepA]
    by_cases ht : t0 = t
    · subst ht
      have hrest : lookupA rest t0 = none := (lookupA_eq_none_iff rest t0).mpr hnd.1
      cases ha : lookupA act t0 with
      | some v => simp [lookupA, ha]
      | none => simp [lookupA, ha]
    · rw [if_neg ht]
      cases ha : lookupA act t with
      | some v => rfl
      | none => simp [lookupA, ht]

theorem mem_mergeBucket (act pend : Bucket) (q : Nat × Handler)
    (h : q ∈ mergeBucket act pend) : q ∈ act ∨ q ∈ pend := by
  induction pend generalizing act with
  | nil => exact Or.inl h
  | cons p rest ih =>
    rw [mergeBucket_cons] at h
    rcases ih _ h with h1 | h1
    · rcases mem_insertKeepA _ _ _ _ h1 with h2 | h2
      · exact Or.inl h2
      · subst h2
        exact Or.inr (by simp)
    · exact Or.inr (List.mem_cons_of_mem _ h1)

theorem nodup_keys_mergeBucket (act pend : Bucket)
    (h : (act.map Prod.fst).Nodup) : ((mergeBucket act pend).map Prod.fst).Nodup := by
  induction pend generalizing act with
  | nil => exact h
  | cons p rest ih =>
    rw [mergeBucket_cons]
    exact ih _ (nodup_keys_insertKeepA _ _ _ h)

theorem mergeInto_cons (act : Dispatchers) (p : List Ty × Bucket)
    (rest : List (List Ty × Bucket)) :
    mergeInto act (p :: rest) =
      mergeInto (setA act p.1 (mergeBucket ((lookupA act p.1).getD []) p.2)) rest := rfl

theorem lookupA_mergeInto (act pend : Dispatchers) (k : List Ty)
    (hnd : (pend.map Prod.fst).Nodup) :
    lookupA (mergeInto act pend) k =
      match lookupA pend k with
      | some pb => some (mergeBucket ((lookupA act k).getD []) pb)
      | none => lookupA act k := by
  induction pend generalizing act with
  | nil => cases h : lookupA act k <;> simp [mergeInto, lookupA, h]
  | cons p rest ih =>
    obtain ⟨k0, b0⟩ := p
    simp only [List.map_cons, List.nodup_cons] at hnd
    rw [mergeInto_cons, ih _ hnd.2]
    by_cases hk : k0 = k
    · subst hk
      have hrest : lookupA rest k0 = none := (lookupA_eq_none_iff rest k0).mpr hnd.1
      rw [hrest]
      simp [lookupA, lookupA_setA]
    · cases hr : lookupA rest k with
      | some pb =>
        simp only [lookupA, if_neg hk, hr]
        rw [lookupA_setA, if_neg hk]
      | none =>
        simp only [lookupA, if_neg hk, hr]
        rw [lookupA_setA, if_neg hk]

theorem merged_bucket_WF (act pend : Dispatchers) (hact : dispWF act) (hpend : dispWF pend)
    (k : List Ty) (b : Bucket) (hb : lookupA (mergeInto act pend) k = some b) :
    (b.map Prod.fst).Nodup ∧ ∀ q ∈ b, (q.2 : Handler).key = k := by
  rw [lookupA_mergeInto _ _ _ hpend.1] at hb
  cases hp : lookupA pend k with
  | some pb =>
    rw [hp] at hb
    have hpbWF := hpend.2 (k, pb) (mem_of_lookupA _ _ _ hp)
    injection hb with hb1
    subst hb1
    cases ha : lookupA act k with
    | some ab =>
      have habWF := hact.2 (k, ab) (mem_of_lookupA _ _ _ ha)
      simp only [Option.getD_some]
      constructor
      · exact nodup_keys_mergeBucket _ _ habWF.1
      · intro q hq
        rcases mem_mergeBucket _ _ _ hq with h1 | h1
        · exact habWF.2 q h1
        · exact hpbWF.2 q h1
    | none =>
      simp only [Option.getD_none]
      constructor
      · exact nodup_keys_mergeBucket _ _ (by simp)
      · intro q hq
        rcases mem_mergeBucket _ _ _ hq with h1 | h1
        · simp at h1
        · exact hpbWF.2 q h1
  | none =>
    rw [hp] at hb
    exact hact.2 (k, b) (mem_of_lookupA _ _ _ hb)

/-- The invocation (if any) a handler closure performs on an event whose
    dynamic type matches the closure's cast type: used to describe the
    successful runs of `runHandler`. -/
def optInv (alive : List Nat) (tag : Nat) (h : Handler) (e : Event) : Option Invocation :=
  match h.kind with
  | .strong => some ⟨tag, h.key, h.fid, e.payload⟩
  | .weak obj => if obj ∈ alive then some ⟨tag, h.key, h.fid, e.payload⟩ else none

theorem any_cast_ok (target : List Ty) (e : Event) (h : e.key = target) :
    any_cast target e = .ok e.payload := by
  unfold any_cast
  rw [if_pos h]

theorem any_cast_err (target : List Ty) (e : Event) (h : e.key ≠ target) :
    any_cast target e = .error .badAnyCast := by
  unfold any_cast
  rw [if_neg h]

theorem runHandler_ok (alive : List Nat) (tag : Nat) (h : Handler) (e : Event)
    (hk : h.key = e.key) : runHandler alive tag h e = .ok (optInv alive tag h e) := by
  obtain ⟨k0, f0, kd⟩ := h
  simp only at hk
  cases kd with
  | strong =>
    show (any_cast k0 e).map _ = _
    rw [any_cast_ok k0 e hk.symm]
    rfl
  | weak obj =>
    by_cases hobj : obj ∈ alive
    · show (if obj ∈ alive then (any_cast k0 e).map _ else _) = _
      rw [if_pos hobj, any_cast_ok k0 e hk.symm]
      show _ = .ok (if obj ∈ alive then _ else _)
      rw [if_pos hobj]
      rfl
    · show (if obj ∈ alive then (any_cast k0 e).map _ else _) = _
      rw [if_neg hobj]
      show _ = .ok (if obj ∈ alive then _ else _)
      rw [if_neg hobj]

theorem optInv_fields (alive : List Nat) (tag : Nat) (h : Handler) (e : Event)
    (inv : Invocation) (hi : optInv alive tag h e = some inv) :
    inv = ⟨tag, h.key, h.fid, e.payload⟩ := by
  obtain ⟨k0, f0, kd⟩ := h
  cases kd with
  | strong =>
    injection hi with hh
    exact hh.symm
  | weak obj =>
    by_cases hobj : obj ∈ alive
    · rw [show optInv alive tag ⟨k0, f0, .weak obj⟩ e
          = if obj ∈ alive then some ⟨tag, k0, f0, e.payload⟩ else none from rfl,
        if_pos hobj] at hi
      injection hi with hh
      exact hh.symm
    · rw [show optInv alive tag ⟨k0, f0, .weak obj⟩ e
          = if obj ∈ alive then some ⟨tag, k0, f0, e.payload⟩ else none from rfl,
        if_neg hobj] at hi
      cases hi

theorem optInv_eq_some_of_live (alive : List Nat) (tag : Nat) (h : Handler) (e : Event)
    (hl : handlerLive alive h = true) :
    optInv alive tag h e = some ⟨tag, h.key, h.fid, e.payload⟩ := by
  obtain ⟨k0, f0, kd⟩ := h
  cases kd with
  | strong => rfl
  | weak obj =>
    have hobj : obj ∈ alive := by
      have : decide (obj ∈ alive) = true := hl
      exact of_decide_eq_true this
    show (if obj ∈ alive then _ else _) = _
    rw [if_pos hobj]

theorem runBucket_ok (alive : List Nat) (b : Bucket) (e : Event)
    (hkeys : ∀ q ∈ b, (q.2 : Handler).key = e.key) :
    runBucket alive b e = .ok (b.filterMap (fun q => optInv alive q.1 q.2 e)) := by
  induction b with
  | nil => rfl
  | cons q rest ih =>
    obtain ⟨tag, h⟩ := q
    have h1 : h.key = e.key := hkeys (tag, h) (by simp)
    have h2 : ∀ r ∈ rest, (r.2 : Handler).key = e.key :=
      fun r hr => hkeys r (List.mem_cons_of_mem _ hr)
    rw [runBucket.eq_def]
    simp only [runHandler_ok alive tag h e h1, ih h2, List.filterMap_cons]
    cases optInv alive tag h e <;> rfl

theorem mem_filterMap_optInv (alive : List Nat) (b : Bucket) (e : Event) (inv : Invocation)
    (h : inv ∈ b.filterMap (fun q => optInv alive q.1 q.2 e)) :
    ∃ q ∈ b, optInv alive q.1 q.2 e = some inv := by
  obtain ⟨q, hq, hoq⟩ := List.mem_filterMap.mp h
  exact ⟨q, hq, hoq⟩

theorem dispatchEvent_ok (alive : List Nat) (d : Dispatchers) (e : Event) (b : Bucket)
    (hb : lookupA d e.key = some b) (hkeys : ∀ q ∈ b, (q.2 : Handler).key = e.key) :
    dispatchEvent alive d e = .ok (b.filterMap (fun q => optInv alive q.1 q.2 e)) := by
  unfold dispatchEvent
  rw [hb]
  show Except.mapError DispatchErr.castFailure (runBucket alive b e) = _
  rw [runBucket_ok alive b e hkeys]
  rfl

theorem sequentialDispatch_ok (alive : List Nat) (events : List Event) (d : Dispatchers)
    (hall : ∀ e ∈ events,
      ∃ b, lookupA d e.key = some b ∧ ∀ q ∈ b, (q.2 : Handler).key = e.key) :
    sequentialDispatch alive events d =
      .ok (events.map
        (fun e => ((lookupA d e.key).getD []).filterMap (fun q => optInv alive q.1 q.2 e))) := by
  induction events with
  | nil => rfl
  | cons e rest ih =>
    obtain ⟨b, hb, hkeys⟩ := hall e (by simp)
    have hrest : ∀ e2 ∈ rest,
        ∃ b2, lookupA d e2.key = some b2 ∧ ∀ q ∈ b2, (q.2 : Handler).key = e2.key :=
      fun e2 he2 => hall e2 (List.mem_cons_of_mem _ he2)
    rw [sequentialDispatch.eq_def]
    simp only [dispatchEvent_ok alive d e b hb hkeys, ih hrest, List.map_cons, hb,
      Option.getD_some]
    rfl

theorem count_filterMap_optInv (alive : List Nat) (b : Bucket) (e : Event) (tag : Nat)
    (h : Handler) (hnd : (b.map Prod.fst).Nodup) (hfind : lookupA b tag = some h)
    (hl : handlerLive alive h = true) :
    (b.filterMap (fun q => optInv alive q.1 q.2 e)).count ⟨tag, h.key, h.fid, e.payload⟩
      = 1 := by
  induction b with
  | nil => simp [lookupA] at hfind
  | cons q rest ih =>
    obtain ⟨t0, h0⟩ := q
    simp only [List.map_cons, List.nodup_cons] at hnd
    simp only [lookupA] at hfind
    by_cases ht : t0 = tag
    · subst ht
      rw [if_pos rfl] at hfind
      injection hfind with hh
      rw [List.filterMap_cons]
      simp only
      rw [hh, optInv_eq_some_of_live alive t0 h e hl]
      have hzero :
          (rest.filterMap (fun q => optInv alive q.1 q.2 e)).count
            (⟨t0, h.key, h.fid, e.payload⟩ : Invocation) = 0 := by
        rw [List.count_eq_zero]
        intro hmem
        obtain ⟨q, hq, hoq⟩ := mem_filterMap_optInv alive rest e _ hmem
        have hfq := optInv_fields alive q.1 q.2 e _ hoq
        have hq1 : q.1 = t0 := by
          have := congrArg Invocation.tag hfq
          simpa using this.symm
        exact hnd.1 (List.mem_map.mpr ⟨q, hq, hq1⟩)
      rw [List.count_cons]
      simp [hzero]
    · rw [if_neg ht] at hfind
      rw [List.filterMap_cons]
      simp only
      cases ho : optInv alive t0 h0 e with
      | none => exact ih hnd.2 hfind
      | some inv =>
        have hfq := optInv_fields alive t0 h0 e inv ho
        have hne : inv ≠ ⟨tag, h.key, h.fid, e.payload⟩ := by
          intro hcontra
          apply ht
          have := congrArg Invocation.tag (hfq.symm.trans hcontra)
          simpa using this
        rw [List.count_cons]
        simp [hne, ih hnd.2 hfind]

/-- How many invocations in a list carry a given handler tag. -/
def countTag (l : List Invocation) (tag : Nat) : Nat :=
  (l.filter (fun i => decide (i.tag = tag))).length

theorem countTag_zero_of_absent (alive : List Nat) (b : Bucket) (e : Event) (tag : Nat)
    (habs : tag ∉ b.map Prod.fst) :
    countTag (b.filterMap (fun q => optInv alive q.1 q.2 e)) tag = 0 := by
  unfold countTag
  rw [List.length_eq_zero, List.filter_eq_nil_iff]
  intro inv hmem
  obtain ⟨q, hq, hoq⟩ := mem_filterMap_optInv alive b e inv hmem
  have hfq := optInv_fields alive q.1 q.2 e inv hoq
  have htag : inv.tag = q.1 := by rw [hfq]
  simp only [decide_eq_true_eq]
  intro hcontra
  apply habs
  rw [← hcontra, htag]
  exact List.mem_map.mpr ⟨q, hq, rfl⟩

theorem count_swapAt (s : List (Option Nat)) (i j : Nat) (x : Option Nat) :
    (swapAt s i j).count x = s.count x := by
  unfold swapAt
  split
  · next h =>
    obtain ⟨hi, hj⟩ := h
    have hgetj : s.get ⟨j, hj⟩ = s[j] := List.get_eq_getElem s ⟨j, hj⟩
    have hgeti : s.get ⟨i, hi⟩ = s[i] := List.get_eq_getElem s ⟨i, hi⟩
    rw [hgetj, hgeti]
    have hj2 : j < (s.set i s[j]).length := by simpa using hj
    have hA : (s.set i s[j]).count x
        = s.count x - (if s[i] = x then 1 else 0) + (if s[j] = x then 1 else 0) := by
      have hcs := List.count_set s[j] x s i hi
      simpa [beq_iff_eq] using hcs
    have hsj : (s.set i s[j])[j] = s[j] := by
      rw [List.getElem_set hj2]
      split <;> rfl
    have hB : ((s.set i s[j]).set j s[i]).count x
        = (s.set i s[j]).count x - (if s[j] = x then 1 else 0)
            + (if s[i] = x then 1 else 0) := by
      have hcs := List.count_set s[i] x (s.set i s[j]) j hj2
      rw [hsj] at hcs
      simpa [beq_iff_eq] using hcs
    have hci : (if s[i] = x then 1 else 0) ≤ s.count x := by
      by_cases hh : s[i] = x
      · rw [if_pos hh]
        exact List.count_pos_iff.mpr (hh ▸ List.getElem_mem hi)
      · rw [if_neg hh]
        exact Nat.zero_le _
    have hcj : (if s[j] = x then 1 else 0) ≤ s.count x := by
      by_cases hh : s[j] = x
      · rw [if_pos hh]
        exact List.count_pos_iff.mpr (hh ▸ List.getElem_mem hj)
      · rw [if_neg hh]
        exact Nat.zero_le _
    rw [hB, hA]
    by_cases e1 : s[i] = x <;> by_cases e2 : s[j] = x
    · rw [if_pos e1] at hci ⊢
      rw [if_pos e2] at hcj ⊢
      omega
    · rw [if_pos e1] at hci ⊢
      rw [if_neg e2] at hcj ⊢
      omega
    · rw [if_neg e1] at hci ⊢
      rw [if_pos e2] at hcj ⊢
      omega
    · rw [if_neg e1] at hci ⊢
      rw [if_neg e2] at hcj ⊢
      omega
  · rfl

theorem count_eraseIdx_add (l : List (Option Nat)) (i : Nat) (v x : Option Nat)
    (hv : l[i]? = some v) :
    (l.eraseIdx i).count x + (if v = x then 1 else 0) = l.count x := by
  induction l generalizing i with
  | nil => simp at hv
  | cons a rest ih =>
    cases i with
    | zero =>
      simp only [List.getElem?_cons_zero] at hv
      injection hv with hv1
      subst hv1
      simp [List.eraseIdx_cons_zero, List.count_cons]
    | succ n =>
      simp only [List.getElem?_cons_succ] at hv
      simp only [List.eraseIdx_cons_succ, List.count_cons, beq_iff_eq]
      have hrec := ih n hv
      split_ifs at hrec ⊢ <;> omega

theorem pendingAndFired_applyOp (sys : TokenSys) (op : TokenOp) (a : Nat) :
    (sys.applyOp op).pendingAndFired a = sys.pendingAndFired a := by
  cases op with
  | moveCtor src =>
    unfold TokenSys.applyOp TokenSys.pendingAndFired
    simp only
    rw [count_swapAt, List.count_append]
    simp
  | moveAssign dst src =>
    unfold TokenSys.applyOp TokenSys.pendingAndFired
    simp only
    rw [count_swapAt]
  | destroy i =>
    have hred : TokenSys.applyOp sys (TokenOp.destroy i)
        = match sys.toks[i]? with
          | some f => ⟨sys.toks.eraseIdx i, sys.fired ++ f.toList⟩
          | none => sys := rfl
    rw [hred]
    cases hv : sys.toks[i]? with
    | none => rfl
    | some f =>
      show (TokenSys.mk (sys.toks.eraseIdx i) (sys.fired ++ f.toList)).pendingAndFired a
        = sys.pendingAndFired a
      unfold TokenSys.pendingAndFired
      simp only
      rw [List.count_append]
      have h1 := count_eraseIdx_add sys.toks i f (some a) hv
      have h2 : (Option.toList f).count a = if f = some a then 1 else 0 := by
        cases f with
        | none => simp [Option.toList]
        | some w =>
          simp only [Option.toList, List.count_cons, List.count_nil, beq_iff_eq,
            Option.some.injEq]
          split <;> simp_all
      rw [h2]
      by_cases hf : f = some a
      · rw [if_pos hf] at h1 ⊢
        omega
      · rw [if_neg hf] at h1 ⊢
        omega

theorem pendingAndFired_applyOps (sys : TokenSys) (ops : List TokenOp) (a : Nat) :
    (sys.applyOps ops).pendingAndFired a = sys.pendingAndFired a := by
  induction ops generalizing sys with
  | nil => rfl
  | cons op rest ih =>
    show ((sys.applyOp op).applyOps rest).pendingAndFired a = _
    rw [ih, pendingAndFired_applyOp]

theorem send_processing (c : channel) (args : List ArgTy) (vals : List Int)
    (hp : c.processing_ = true) :
    c.send args vals = { c with events_ := c.events_ ++ [make_event args vals] } := by
  unfold channel.send
  rw [if_pos (by rw [hp]; rfl)]

theorem processBatch_run (c : channel) (alive : List Nat)
    (hp : c.processing_ = true) (hne : c.events_ ≠ [])
    (invs : List (List Invocation))
    (hseq : sequentialDispatch alive c.events_
      (mergeInto c.dispatchers_ c.dispatchers_pending_) = .ok invs) :
    c.processBatch alive = .ok ({ c with
      events_ := [],
      dispatchers_pending_ := [],
      dispatchers_ := mergeInto c.dispatchers_ c.dispatchers_pending_ }, invs) := by
  unfold channel.processBatch
  have hie : c.events_.isEmpty = false := by
    cases hev : c.events_ with
    | nil => exact absurd hev hne
    | cons a l => rfl
  have hguard : (c.processing_ && !c.events_.isEmpty) = true := by
    rw [hp, hie]
    rfl
  rw [if_pos hguard]
  show (sequentialDispatch alive c.events_
    (mergeInto c.dispatchers_ c.dispatchers_pending_)).map _ = _
  rw [hseq]
  rfl

theorem batch_delivers (c : channel) (alive : List Nat) (args : List ArgTy)
    (vals : List Int) (tag : Nat) (h : Handler)
    (hwf : chanWF c) (hp : c.processing_ = true)
    (hreg : c.registeredAt (event_type_index args) tag = some h)
    (hlive : handlerLive alive h = true)
    (hdisp : ∀ e ∈ c.events_,
      (lookupA (mergeInto c.dispatchers_ c.dispatchers_pending_) e.key).isSome = true) :
    isOkE ((c.send args vals).processBatch alive) = true
    ∧ ((c.send args vals).invocationsOf alive).length = c.events_.length + 1
    ∧ (((c.send args vals).invocationsOf alive).getLastD []).count
        ⟨tag, h.key, h.fid, vals⟩ = 1 := by
  have hsend := send_processing c args vals hp
  unfold channel.registeredAt at hreg
  cases hb : lookupA (mergeInto c.dispatchers_ c.dispatchers_pending_)
      (event_type_index args) with
  | none => rw [hb] at hreg; cases hreg
  | some b =>
  rw [hb] at hreg
  simp only [Option.some_bind] at hreg
  have hbWF := merged_bucket_WF _ _ hwf.2 hwf.1 _ _ hb
  have hall : ∀ e ∈ c.events_ ++ [make_event args vals],
      ∃ b2, lookupA (mergeInto c.dispatchers_ c.dispatchers_pending_) e.key = some b2
        ∧ ∀ q ∈ b2, (q.2 : Handler).key = e.key := by
    intro e he
    rcases List.mem_append.mp he with h1 | h1
    · have hs := hdisp e h1
      cases hb2 : lookupA (mergeInto c.dispatchers_ c.dispatchers_pending_) e.key with
      | none => rw [hb2] at hs; cases hs
      | some b2 =>
        exact ⟨b2, rfl, (merged_bucket_WF _ _ hwf.2 hwf.1 _ _ hb2).2⟩
    · have he2 : e = make_event args vals := by simpa using h1
      subst he2
      exact ⟨b, hb, hbWF.2⟩
  have hseq := sequentialDispatch_ok alive (c.events_ ++ [make_event args vals])
    (mergeInto c.dispatchers_ c.dispatchers_pending_) hall
  have hpb : (c.send args vals).processBatch alive
      = .ok ({ c with
          events_ := [],
          dispatchers_pending_ := [],
          dispatchers_ := mergeInto c.dispatchers_ c.dispatchers_pending_ },
        (c.events_ ++ [make_event args vals]).map
          (fun e => ((lookupA (mergeInto c.dispatchers_ c.dispatchers_pending_) e.key).getD
            []).filterMap (fun q => optInv alive q.1 q.2 e))) := by
    rw [hsend]
    exact processBatch_run
      { c with events_ := c.events_ ++ [make_event args vals] } alive hp
      (by simp) _ hseq
  refine ⟨?_, ?_, ?_⟩
  · rw [hpb]
    rfl
  · unfold channel.invocationsOf
    rw [hpb]
    simp
  · unfold channel.invocationsOf
    rw [hpb]
    simp only [List.map_append, List.map_cons, List.map_nil]
    rw [List.getLastD_concat]
    have hkey : (make_event args vals).key = event_type_index args := rfl
    rw [hkey, hb]
    simp only [Option.getD_some]
    exact count_filterMap_optInv alive b (make_event args vals) tag h hbWF.1 hreg hlive

/-- A channel with one free function (address 50, body 1) subscribed for
    `(int)`: the subscription sits in the pending registry. -/
def c1exSub : channel := (mkChannel true).subscribe_fn [ArgTy.plain Ty.int] 50 1

/-- The same channel after `send(7)` followed by `unsubscribe` of that
    function, before the worker has run: the handler was subscribed and not
    yet unsubscribed at the moment of the send. -/
def c1exAfter : channel :=
  (c1exSub.send [ArgTy.plain Ty.int] [7]).unsubscribe_fn [ArgTy.plain Ty.int] 50

/-- C1, counterexample to the claim as stated: a handler subscribed and not
    yet unsubscribed at the time of a `send` can receive zero invocations —
    here it is unsubscribed after the send but before the worker dispatches
    the event, so the worker iteration invokes nothing for that event, and
    afterwards the queue is empty and the handler is registered nowhere, so
    it can never be invoked. -/
theorem c1_counterexample :
    c1exSub.registeredAt [Ty.int] 50 = some ⟨[Ty.int], 1, HandlerKind.strong⟩
    ∧ c1exAfter.invocationsOf [] = [[]]
    ∧ (c1exAfter.afterBatch []).events_ = []
    ∧ (c1exAfter.afterBatch []).registeredAt [Ty.int] 50 = none := by
  decide

/-- C1 (amended): on a running, well-formed channel, a handler that is
    registered for the sent argument list in the registry state the worker's
    merge will produce — i.e. subscribed at the time of the send and neither
    unsubscribed, nor overwritten, nor (if weakly owned) dead before that
    event is dispatched — receives exactly one invocation for that send in
    the worker iteration that dispatches it, and the delivered value equals
    the sent arguments.  (The queued events must all have buckets, the
    source's `map::at` precondition.) -/
theorem c1_amended (c : channel) (alive : List Nat) (args : List ArgTy)
    (vals : List Int) (tag : Nat) (h : Handler)
    (hwf : chanWF c) (hp : c.processing_ = true)
    (hreg : c.registeredAt (event_type_index args) tag = some h)
    (hlive : handlerLive alive h = true)
    (hdisp : ∀ e ∈ c.events_,
      (lookupA (mergeInto c.dispatchers_ c.dispatchers_pending_) e.key).isSome = true) :
    isOkE ((c.send args vals).processBatch alive) = true
    ∧ ((c.send args vals).invocationsOf alive).length = c.events_.length + 1
    ∧ (((c.send args vals).invocationsOf alive).getLastD []).count
        ⟨tag, h.key, h.fid, vals⟩ = 1 :=
  batch_delivers c alive args vals tag h hwf hp hreg hlive hdisp

theorem c1_witness :
    isOkE ((((mkChannel true).subscribe_fn [ArgTy.plain Ty.int] 5 1).send
        [ArgTy.plain Ty.int] [42]).processBatch []) = true
    ∧ ((((mkChannel true).subscribe_fn [ArgTy.plain Ty.int] 5 1).send
        [ArgTy.plain Ty.int] [42]).invocationsOf []).length
        = ((mkChannel true).subscribe_fn [ArgTy.plain Ty.int] 5 1).events_.length + 1
    ∧ (((((mkChannel true).subscribe_fn [ArgTy.plain Ty.int] 5 1).send
        [ArgTy.plain Ty.int] [42]).invocationsOf []).getLastD []).count
        ⟨5, [Ty.int], 1, [42]⟩ = 1 :=
  c1_amended ((mkChannel true).subscribe_fn [ArgTy.plain Ty.int] 5 1) []
    [ArgTy.plain Ty.int] [42] 5 ⟨[Ty.int], 1, HandlerKind.strong⟩
    (by decide) (by decide) (by decide) (by decide) (by decide)

theorem sequentialDispatch_empty_buckets (alive : List Nat) (events : List Event)
    (d : Dispatchers) (hempty : ∀ ev ∈ events, lookupA d ev.key = some ([] : Bucket)) :
    sequentialDispatch alive events d = .ok (events.map (fun _ => [])) := by
  induction events with
  | nil => rfl
  | cons ev rest ih =>
    have hb := hempty ev (by simp)
    have hrest := fun x hx => hempty x (List.mem_cons_of_mem _ hx)
    rw [sequentialDispatch.eq_def]
    simp only [dispatchEvent, hb, ih hrest]
    rfl

theorem parallelDispatch_empty_buckets (alive : List Nat) (events : List Event)
    (d : Dispatchers) (hempty : ∀ ev ∈ events, lookupA d ev.key = some ([] : Bucket)) :
    parallelDispatch alive events d = .ok (events.map (fun _ => [])) := by
  induction events with
  | nil => rfl
  | cons ev rest ih =>
    have hb := hempty ev (by simp)
    have hrest := fun x hx => hempty x (List.mem_cons_of_mem _ hx)
    rw [parallelDispatch.eq_def]
    simp only [hb, ih hrest]
    rfl

/-- C2, counterexample to the claim as stated: dispatching an event whose
    type key has no bucket at all in the registry is not a no-op — both
    policies call `dispatchers.at(event.type())`, which throws
    `std::out_of_range` when the key is absent. -/
theorem c2_counterexample :
    sequentialDispatch [] [⟨[Ty.int], [1]⟩] [] = .error .outOfRange
    ∧ parallelDispatch [] [⟨[Ty.int], [1]⟩] [] = .error .outOfRange := by
  decide

/-- C2 (amended): under both dispatch policies, an event whose bucket exists
    but is empty (as after every handler of that key was unsubscribed, which
    erases entries but leaves the bucket) invokes no handler and succeeds;
    but an event whose type key has no bucket in the registry raises the
    `map::at` lookup fault instead of being a no-op. -/
theorem c2_amended (alive : List Nat) (events : List Event) (d : Dispatchers) (e : Event)
    (hempty : ∀ ev ∈ events, lookupA d ev.key = some ([] : Bucket))
    (hmiss : lookupA d e.key = none) :
    sequentialDispatch alive events d = .ok (events.map (fun _ => []))
    ∧ parallelDispatch alive events d = .ok (events.map (fun _ => []))
    ∧ sequentialDispatch alive [e] d = .error .outOfRange
    ∧ parallelDispatch alive [e] d = .error .outOfRange := by
  refine ⟨sequentialDispatch_empty_buckets alive events d hempty,
    parallelDispatch_empty_buckets alive events d hempty, ?_, ?_⟩
  · rw [sequentialDispatch.eq_def]
    simp only [dispatchEvent, hmiss]
    rfl
  · rw [parallelDispatch.eq_def]
    simp only [hmiss]

theorem c2_witness :
    sequentialDispatch [] [⟨[Ty.int], [5]⟩] [([Ty.int], [])] = .ok [[]]
    ∧ parallelDispatch [] [⟨[Ty.int], [5]⟩] [([Ty.int], [])] = .ok [[]]
    ∧ sequentialDispatch [] [⟨[Ty.str], [1]⟩] [([Ty.int], [])] = .error .outOfRange
    ∧ parallelDispatch [] [⟨[Ty.str], [1]⟩] [([Ty.int], [])] = .error .outOfRange :=
  c2_amended [] [⟨[Ty.int], [5]⟩] [([Ty.int], [])] ⟨[Ty.str], [1]⟩
    (by decide) (by decide)

/-- C3, counterexample to the claim as stated: the keys derived from the
    argument-type lists `(int)` and `(int const&)` are equal although the
    ordered lists differ — `make_tuple` decays both to `tuple<int>` before
    `typeid` is taken.  (The repository's own test relies on this: it
    subscribes a lambda at `const MessageType&` and sends a `MessageType`.) -/
theorem c3_counterexample :
    event_type_index [ArgTy.plain Ty.int] = event_type_index [ArgTy.clref Ty.int]
    ∧ [ArgTy.plain Ty.int] ≠ [ArgTy.clref Ty.int] := by
  decide

/-- C3 (amended): two event type keys are equal iff the decayed ordered
    argument-type lists are identical (not the raw lists, which may differ
    by reference or cv qualifiers); and dispatch is keyed: every invocation
    a dispatched event produces went to a handler whose decayed subscription
    list equals the event's key, so no event is ever delivered across
    distinct decayed type lists. -/
theorem c3_amended (as bs : List ArgTy) (alive : List Nat) (d : Dispatchers) (e : Event)
    (b : Bucket) (invs : List Invocation) (inv : Invocation)
    (hb : lookupA d e.key = some b) (hkeys : ∀ q ∈ b, (q.2 : Handler).key = e.key)
    (hok : dispatchEvent alive d e = .ok invs) (hmem : inv ∈ invs) :
    (event_type_index as = event_type_index bs
      ↔ as.map ArgTy.decay = bs.map ArgTy.decay)
    ∧ inv.key = e.key := by
  constructor
  · exact Iff.rfl
  · rw [dispatchEvent_ok alive d e b hb hkeys] at hok
    injection hok with hh
    subst hh
    obtain ⟨q, hq, hoq⟩ := mem_filterMap_optInv alive b e inv hmem
    rw [optInv_fields alive q.1 q.2 e inv hoq]
    exact hkeys q hq

theorem c3_witness :
    (event_type_index [ArgTy.plain Ty.int] = event_type_index [ArgTy.clref Ty.int]
      ↔ [ArgTy.plain Ty.int].map ArgTy.decay = [ArgTy.clref Ty.int].map ArgTy.decay)
    ∧ (⟨5, [Ty.int], 1, [3]⟩ : Invocation).key = (⟨[Ty.int], [3]⟩ : Event).key :=
  c3_amended [ArgTy.plain Ty.int] [ArgTy.clref Ty.int] []
    [([Ty.int], [(5, ⟨[Ty.int], 1, HandlerKind.strong⟩)])] ⟨[Ty.int], [3]⟩
    [(5, ⟨[Ty.int], 1, HandlerKind.strong⟩)] [⟨5, [Ty.int], 1, [3]⟩]
    ⟨5, [Ty.int], 1, [3]⟩ (by decide) (by decide) (by decide) (by decide)

theorem dispWF_setA_erase (d : Dispatchers) (key : List Ty) (tag : Nat) (b : Bucket)
    (hwf : dispWF d) (hb : lookupA d key = some b) :
    dispWF (setA d key (eraseA b tag)) := by
  constructor
  · exact nodup_keys_setA _ _ _ hwf.1
  · intro p hp
    rcases mem_setA _ _ _ _ hp with h1 | h1
    · exact hwf.2 p h1
    · subst h1
      have hbWF := hwf.2 (key, b) (mem_of_lookupA _ _ _ hb)
      refine ⟨nodup_keys_eraseA _ _ hbWF.1, ?_⟩
      intro q hq
      exact hbWF.2 q (List.mem_of_mem_filter hq)

theorem chanWF_unsubscribe (c : channel) (key : List Ty) (tag : Nat) (hwf : chanWF c) :
    chanWF (c.unsubscribe_index_tag key tag) := by
  unfold channel.unsubscribe_index_tag
  cases ha : lookupA c.dispatchers_ key with
  | some b => exact ⟨hwf.1, dispWF_setA_erase _ _ _ _ hwf.2 ha⟩
  | none =>
    cases hpd : lookupA c.dispatchers_pending_ key with
    | some b => exact ⟨dispWF_setA_erase _ _ _ _ hwf.1 hpd, hwf.2⟩
    | none => exact hwf

theorem unsubscribe_fields (c : channel) (key : List Ty) (tag : Nat) :
    (c.unsubscribe_index_tag key tag).processing_ = c.processing_
    ∧ (c.unsubscribe_index_tag key tag).events_ = c.events_ := by
  unfold channel.unsubscribe_index_tag
  cases lookupA c.dispatchers_ key with
  | some b => exact ⟨rfl, rfl⟩
  | none =>
    cases lookupA c.dispatchers_pending_ key with
    | some b => exact ⟨rfl, rfl⟩
    | none => exact ⟨rfl, rfl⟩

theorem batch_not_delivered (c : channel) (alive : List Nat) (args : List ArgTy)
    (vals : List Int) (tag : Nat)
    (hwf : chanWF c) (hp : c.processing_ = true)
    (habs : c.registeredAt (event_type_index args) tag = none)
    (hbucket : (lookupA (mergeInto c.dispatchers_ c.dispatchers_pending_)
      (event_type_index args)).isSome = true)
    (hdisp : ∀ e ∈ c.events_,
      (lookupA (mergeInto c.dispatchers_ c.dispatchers_pending_) e.key).isSome = true) :
    isOkE ((c.send args vals).processBatch alive) = true
    ∧ countTag (((c.send args vals).invocationsOf alive).getLastD []) tag = 0 := by
  have hsend := send_processing c args vals hp
  unfold channel.registeredAt at habs
  cases hb : lookupA (mergeInto c.dispatchers_ c.dispatchers_pending_)
      (event_type_index args) with
  | none => rw [hb] at hbucket; cases hbucket
  | some b =>
  rw [hb] at habs
  simp only [Option.some_bind] at habs
  have htagabs : tag ∉ b.map Prod.fst := (lookupA_eq_none_iff b tag).mp habs
  have hbWF := merged_bucket_WF _ _ hwf.2 hwf.1 _ _ hb
  have hall : ∀ e ∈ c.events_ ++ [make_event args vals],
      ∃ b2, lookupA (mergeInto c.dispatchers_ c.dispatchers_pending_) e.key = some b2
        ∧ ∀ q ∈ b2, (q.2 : Handler).key = e.key := by
    intro e he
    rcases List.mem_append.mp he with h1 | h1
    · have hs := hdisp e h1
      cases hb2 : lookupA (mergeInto c.dispatchers_ c.dispatchers_pending_) e.key with
      | none => rw [hb2] at hs; cases hs
      | some b2 =>
        exact ⟨b2, rfl, (merged_bucket_WF _ _ hwf.2 hwf.1 _ _ hb2).2⟩
    · have he2 : e = make_event args vals := by simpa using h1
      subst he2
      exact ⟨b, hb, hbWF.2⟩
  have hseq := sequentialDispatch_ok alive (c.events_ ++ [make_event args vals])
    (mergeInto c.dispatchers_ c.dispatchers_pending_) hall
  have hpb : (c.send args vals).processBatch alive
      = .ok ({ c with
          events_ := [],
          dispatchers_pending_ := [],
          dispatchers_ := mergeInto c.dispatchers_ c.dispatchers_pending_ },
        (c.events_ ++ [make_event args vals]).map
          (fun e => ((lookupA (mergeInto c.dispatchers_ c.dispatchers_pending_) e.key).getD
            []).filterMap (fun q => optInv alive q.1 q.2 e))) := by
    rw [hsend]
    exact processBatch_run
      { c with events_ := c.events_ ++ [make_event args vals] } alive hp
      (by simp) _ hseq
  refine ⟨?_, ?_⟩
  · rw [hpb]
    rfl
  · unfold channel.invocationsOf
    rw [hpb]
    simp only [List.map_append, List.map_cons, List.map_nil]
    rw [List.getLastD_concat]
    have hkey : (make_event args vals).key = event_type_index args := rfl
    rw [hkey, hb]
    simp only [Option.getD_some]
    exact countTag_zero_of_absent alive b (make_event args vals) tag htagabs

theorem unsubscribe_registeredAt_none (c : channel) (key : List Ty) (tag : Nat)
    (hwf : chanWF c)
    (hcond : (lookupA c.dispatchers_ key).isSome = true →
      lookupA ((lookupA c.dispatchers_pending_ key).getD []) tag = none) :
    (c.unsubscribe_index_tag key tag).registeredAt key tag = none := by
  unfold channel.unsubscribe_index_tag
  cases ha : lookupA c.dispatchers_ key with
  | some ab =>
    have hpdnone := hcond (by rw [ha]; rfl)
    unfold channel.registeredAt
    simp only
    rw [lookupA_mergeInto _ _ _ hwf.1.1]
    cases hpd : lookupA c.dispatchers_pending_ key with
    | some pb =>
      rw [hpd] at hpdnone
      simp only [Option.getD_some] at hpdnone
      have hpbWF := hwf.1.2 (key, pb) (mem_of_lookupA _ _ _ hpd)
      rw [lookupA_setA, if_pos rfl]
      simp only [Option.getD_some, Option.some_bind]
      rw [lookupA_mergeBucket _ _ _ hpbWF.1, lookupA_eraseA, if_pos rfl]
      exact hpdnone
    | none =>
      show (lookupA (setA c.dispatchers_ key (eraseA ab tag)) key).bind
        (fun b => lookupA b tag) = none
      rw [lookupA_setA, if_pos rfl]
      simp only [Option.some_bind]
      rw [lookupA_eraseA, if_pos rfl]
  | none =>
    cases hpd : lookupA c.dispatchers_pending_ key with
    | some pb =>
      have hpbWF := hwf.1.2 (key, pb) (mem_of_lookupA _ _ _ hpd)
      unfold channel.registeredAt
      simp only
      rw [lookupA_mergeInto _ _ _ (nodup_keys_setA _ _ _ hwf.1.1)]
      rw [lookupA_setA, if_pos rfl]
      rw [ha]
      simp only [Option.getD_none, Option.some_bind]
      rw [lookupA_mergeBucket _ _ _ (nodup_keys_eraseA _ _ hpbWF.1)]
      simp only [lookupA]
      rw [lookupA_eraseA, if_pos rfl]
    | none =>
      unfold channel.registeredAt
      rw [lookupA_mergeInto _ _ _ hwf.1.1, hpd, ha]
      rfl

/-- A channel with a free function (address 50, body 1) subscribed for
    `(int)`. -/
def c4exStep1 : channel := (mkChannel true).subscribe_fn [ArgTy.plain Ty.int] 50 1

/-- The same channel after one worker iteration triggered by a send: the
    handler has been merged into the active registry. -/
def c4exStep2 : channel := (c4exStep1.send [ArgTy.plain Ty.int] [7]).afterBatch []

/-- A second handler (address 60, body 2) subscribed for the same key: it
    sits in the pending registry while the active bucket exists. -/
def c4exStep3 : channel := c4exStep2.subscribe_fn [ArgTy.plain Ty.int] 60 2

/-- The channel after unsubscribing that second handler. -/
def c4exAfter : channel := c4exStep3.unsubscribe_fn [ArgTy.plain Ty.int] 60

/-- C4, counterexample to the claim as stated: because the active registry
    already has a bucket for the key, `unsubscribe` erases only there (the
    `else if` never runs), so the entry just subscribed into the pending
    registry survives the unsubscribe, and the next send still invokes the
    supposedly unsubscribed handler (tag 60, body 2). -/
theorem c4_counterexample :
    lookupA ((lookupA c4exAfter.dispatchers_pending_ [Ty.int]).getD []) 60
      = some ⟨[Ty.int], 2, HandlerKind.strong⟩
    ∧ countTag ((channel.invocationsOf []
        (c4exAfter.send [ArgTy.plain Ty.int] [9])).getLastD []) 60 = 1 := by
  decide

/-- C4 (amended): `unsubscribe` erases the tag from the active registry's
    bucket when the active registry has a bucket for the key, and only
    otherwise from the pending registry.  Provided the tag is not left
    behind in pending while an active bucket exists (the `hcond`
    hypothesis), the handler is gone from the merged registry view and a
    subsequent send's worker iteration produces no invocation carrying that
    tag for the sent event. -/
theorem c4_amended (c : channel) (alive : List Nat) (args : List ArgTy) (vals : List Int)
    (tag : Nat)
    (hwf : chanWF c) (hp : c.processing_ = true)
    (hcond : (lookupA c.dispatchers_ (event_type_index args)).isSome = true →
      lookupA ((lookupA c.dispatchers_pending_ (event_type_index args)).getD []) tag
        = none)
    (hbucket : (lookupA (mergeInto
        (c.unsubscribe_index_tag (event_type_index args) tag).dispatchers_
        (c.unsubscribe_index_tag (event_type_index args) tag).dispatchers_pending_)
      (event_type_index args)).isSome = true)
    (hdisp : ∀ e ∈ (c.unsubscribe_index_tag (event_type_index args) tag).events_,
      (lookupA (mergeInto
        (c.unsubscribe_index_tag (event_type_index args) tag).dispatchers_
        (c.unsubscribe_index_tag (event_type_index args) tag).dispatchers_pending_)
        e.key).isSome = true) :
    (c.unsubscribe_index_tag (event_type_index args) tag).registeredAt
        (event_type_index args) tag = none
    ∧ isOkE (channel.processBatch alive
        ((c.unsubscribe_index_tag (event_type_index args) tag).send args vals)) = true
    ∧ countTag ((channel.invocationsOf alive
        ((c.unsubscribe_index_tag (event_type_index args) tag).send args vals)).getLastD
        []) tag = 0 := by
  have habs := unsubscribe_registeredAt_none c (event_type_index args) tag hwf hcond
  have hwfu := chanWF_unsubscribe c (event_type_index args) tag hwf
  have hpu : (c.unsubscribe_index_tag (event_type_index args) tag).processing_ = true := by
    rw [(unsubscribe_fields c (event_type_index args) tag).1]
    exact hp
  have hrest := batch_not_delivered (c.unsubscribe_index_tag (event_type_index args) tag)
    alive args vals tag hwfu hpu habs hbucket hdisp
  exact ⟨habs, hrest.1, hrest.2⟩

/-- The channel of the C4 witness: one handler subscribed then unsubscribed
    before any merge, so the erase happens in pending. -/
def c4wit : channel :=
  ((mkChannel true).subscribe_fn [ArgTy.plain Ty.int] 5 1).unsubscribe_index_tag
    [Ty.int] 5

theorem c4_witness :
    c4wit.registeredAt [Ty.int] 5 = none
    ∧ isOkE (channel.processBatch [] (c4wit.send [ArgTy.plain Ty.int] [3])) = true
    ∧ countTag ((channel.invocationsOf []
        (c4wit.send [ArgTy.plain Ty.int] [3])).getLastD []) 5 = 0 :=
  c4_amended ((mkChannel true).subscribe_fn [ArgTy.plain Ty.int] 5 1) []
    [ArgTy.plain Ty.int] [3] 5 (by decide) (by decide) (by decide) (by decide) (by decide)

/-- A channel with a raw-pointer member-function handler (object address 8,
    member hash 3, body 1, tag `make_tag_mem 8 3`) subscribed for `(int)`
    and merged into the active registry by one worker iteration. -/
def c5exMerged : channel :=
  (((mkChannel true).subscribe_mem [ArgTy.plain Ty.int] 8 3 1).send
    [ArgTy.plain Ty.int] [7]).afterBatch []

/-- The same channel after re-registering the same object and member through
    the `shared_ptr` overload: same key, same tag, but now a weakly-owned
    closure — the registration the spec says should win. -/
def c5exResub : channel := c5exMerged.subscribe_weak [ArgTy.plain Ty.int] 8 3 1

/-- C5, counterexample to the claim as stated: after a worker merge moved
    the first registration into the active registry, re-registering under
    the same key and tag does not overwrite — the merge's `map::insert`
    keeps the existing active entry, so the registry still holds the old
    strongly-bound closure, and a send with the target object already dead
    (alive set empty) still produces its invocation, where the most recent
    (weak) registration would have skipped it. -/
theorem c5_counterexample :
    c5exResub.registeredAt [Ty.int] (make_tag_mem 8 3)
      = some ⟨[Ty.int], 1, HandlerKind.strong⟩
    ∧ countTag ((channel.invocationsOf []
        (c5exResub.send [ArgTy.plain Ty.int] [9])).getLastD [])
        (make_tag_mem 8 3) = 1 := by
  decide

/-- C5 (amended): registering a second entry under the same key and tag
    overwrites the prior entry while both registrations are still pending
    (last write wins inside the pending registry); but when a worker merge
    has already moved the earlier entry into the active registry, the next
    merge's `map::insert` does not overwrite it, so the earlier handler
    remains the registered one and the later registration is discarded. -/
theorem c5_amended (c : channel) (key : List Ty) (tag : Nat) (h1 h2 : Handler)
    (hwf : chanWF c)
    (hactive : (lookupA c.dispatchers_ key).bind (fun b => lookupA b tag) = some h1) :
    lookupA ((lookupA ((c.registerHandler key tag h1).registerHandler key tag
        h2).dispatchers_pending_ key).getD []) tag = some h2
    ∧ (c.registerHandler key tag h2).registeredAt key tag = some h1 := by
  constructor
  · unfold channel.registerHandler
    simp only
    rw [lookupA_setA, if_pos rfl]
    simp only [Option.getD_some]
    rw [lookupA_setA, if_pos rfl]
  · cases ha : lookupA c.dispatchers_ key with
    | none => rw [ha] at hactive; cases hactive
    | some ab =>
    rw [ha] at hactive
    simp only [Option.some_bind] at hactive
    unfold channel.registeredAt channel.registerHandler
    simp only
    rw [lookupA_mergeInto _ _ _ (nodup_keys_setA _ _ _ hwf.1.1)]
    rw [lookupA_setA, if_pos rfl, ha]
    simp only [Option.getD_some, Option.some_bind]
    have hbnd : ((((lookupA c.dispatchers_pending_ key).getD []).map Prod.fst)).Nodup := by
      cases hpd : lookupA c.dispatchers_pending_ key with
      | none => simp
      | some pb =>
        simp only [Option.getD_some]
        exact (hwf.1.2 (key, pb) (mem_of_lookupA _ _ _ hpd)).1
    rw [lookupA_mergeBucket _ _ _ (nodup_keys_setA _ _ _ hbnd)]
    rw [hactive]

/-- The channel of the C5 witness: handler body 1 already merged into the
    active registry under key `(int)` and tag 5, empty pending registry. -/
def c5wit : channel :=
  channel.mk true true true 0 [] [] [([Ty.int], [(5, ⟨[Ty.int], 1, HandlerKind.strong⟩)])]

theorem c5_witness :
    lookupA ((lookupA ((c5wit.registerHandler [Ty.int] 5
        ⟨[Ty.int], 1, HandlerKind.strong⟩).registerHandler [Ty.int] 5
        ⟨[Ty.int], 2, HandlerKind.strong⟩).dispatchers_pending_ [Ty.int]).getD []) 5
      = some ⟨[Ty.int], 2, HandlerKind.strong⟩
    ∧ (c5wit.registerHandler [Ty.int] 5 ⟨[Ty.int], 2, HandlerKind.strong⟩).registeredAt
        [Ty.int] 5 = some ⟨[Ty.int], 1, HandlerKind.strong⟩ :=
  c5_amended c5wit [Ty.int] 5 ⟨[Ty.int], 1, HandlerKind.strong⟩
    ⟨[Ty.int], 2, HandlerKind.strong⟩ (by decide) (by decide)

/-- C6: `event_cast` is a checked downcast — decoding an event whose stored
    key differs from the key computed from the decoder's type list raises
    `bad_any_cast` instead of returning any value, and a matching decode
    returns exactly the stored tuple, so a mismatch can never silently
    misinterpret or corrupt the payload. -/
theorem c6_checked_decode (as : List ArgTy) (e : Event) (p : List Int)
    (hne : e.key ≠ event_type_index as) :
    event_cast as e = .error .badAnyCast
    ∧ event_cast as ⟨event_type_index as, p⟩ = .ok p := by
  constructor
  · exact any_cast_err _ _ hne
  · exact any_cast_ok _ _ rfl

theorem c6_witness :
    event_cast [ArgTy.plain Ty.int] ⟨[Ty.str], [5]⟩ = .error .badAnyCast
    ∧ event_cast [ArgTy.plain Ty.int] ⟨event_type_index [ArgTy.plain Ty.int], [9]⟩
      = .ok [9] :=
  c6_checked_decode [ArgTy.plain Ty.int] ⟨[Ty.str], [5]⟩ [9] (by decide)

theorem start_stopped (c : channel) (hstop : c.processing_ = false) :
    c.start = { c with processing_ := true, threadJoinable := true } := by
  unfold channel.start
  rw [if_neg (by rw [hstop]; exact Bool.false_ne_true)]

/-- C7: when the channel is stopped, `send` is decided by the idle policy —
    under `drop_events` the send leaves the channel state (and in particular
    the event queue) completely unchanged, so no handler can ever observe
    the event, even after a later `start()`; under `keep_events` the send is
    queued, and once `start()` resumes and the worker runs, a registered
    live handler receives exactly one invocation carrying the sent value. -/
theorem c7_idle_policy (c : channel) (alive : List Nat) (args : List ArgTy)
    (vals : List Int) (tag : Nat) (h : Handler)
    (hstopped : c.processing_ = false) :
    (c.idleKeep = false → c.send args vals = c)
    ∧ (c.idleKeep = true →
        chanWF c →
        c.registeredAt (event_type_index args) tag = some h →
        handlerLive alive h = true →
        (∀ e ∈ c.events_,
          (lookupA (mergeInto c.dispatchers_ c.dispatchers_pending_) e.key).isSome
            = true) →
        isOkE (channel.processBatch alive ((c.send args vals).start)) = true
        ∧ (channel.invocationsOf alive ((c.send args vals).start)).length
            = c.events_.length + 1
        ∧ ((channel.invocationsOf alive ((c.send args vals).start)).getLastD []).count
            ⟨tag, h.key, h.fid, vals⟩ = 1) := by
  constructor
  · intro hdrop
    unfold channel.send
    rw [if_neg (by rw [hstopped, hdrop]; exact Bool.false_ne_true)]
  · intro hkeep hwf hreg hlive hdisp
    have hcomm : (c.send args vals).start = (c.start).send args vals := by
      have hsk : c.send args vals = { c with events_ := c.events_ ++ [make_event args vals] } := by
        unfold channel.send
        rw [if_pos (by rw [hstopped, hkeep]; rfl)]
      rw [hsk,
        start_stopped { c with events_ := c.events_ ++ [make_event args vals] } hstopped,
        start_stopped c hstopped,
        send_processing { c with processing_ := true, threadJoinable := true }
          args vals rfl]
    rw [hcomm]
    have hres := batch_delivers (c.start) alive args vals tag h
      (by rw [start_stopped c hstopped]; exact hwf)
      (by rw [start_stopped c hstopped])
      (by rw [start_stopped c hstopped]; exact hreg)
      hlive
      (by rw [start_stopped c hstopped]; exact hdisp)
    have hev : c.start.events_ = c.events_ := by rw [start_stopped c hstopped]
    rw [hev] at hres
    exact hres

/-- The stopped `drop_events` channel of the C7 witness. -/
def c7drop : channel := channel.mk false false false 0 [] [] []

/-- The stopped `keep_events` channel of the C7 witness, with one handler
    (tag 5, body 1) already in the active registry for `(int)`. -/
def c7keep : channel :=
  channel.mk false false true 0 [] [] [([Ty.int], [(5, ⟨[Ty.int], 1, HandlerKind.strong⟩)])]

theorem c7_witness :
    c7drop.send [ArgTy.plain Ty.int] [3] = c7drop
    ∧ (isOkE (channel.processBatch [] ((c7keep.send [ArgTy.plain Ty.int] [3]).start))
        = true
      ∧ (channel.invocationsOf [] ((c7keep.send [ArgTy.plain Ty.int] [3]).start)).length
          = c7keep.events_.length + 1
      ∧ ((channel.invocationsOf []
          ((c7keep.send [ArgTy.plain Ty.int] [3]).start)).getLastD []).count
          ⟨5, [Ty.int], 1, [3]⟩ = 1) :=
  ⟨(c7_idle_policy c7drop [] [ArgTy.plain Ty.int] [3] 5
      ⟨[Ty.int], 1, HandlerKind.strong⟩ rfl).1 rfl,
    (c7_idle_policy c7keep [] [ArgTy.plain Ty.int] [3] 5
      ⟨[Ty.int], 1, HandlerKind.strong⟩ rfl).2 rfl (by decide) (by decide) (by decide)
      (by decide)⟩

theorem dispatchable_all (c : channel) (hwf : chanWF c)
    (hdisp : ∀ e ∈ c.events_,
      (lookupA (mergeInto c.dispatchers_ c.dispatchers_pending_) e.key).isSome = true) :
    ∀ e ∈ c.events_,
      ∃ b2, lookupA (mergeInto c.dispatchers_ c.dispatchers_pending_) e.key = some b2
        ∧ ∀ q ∈ b2, (q.2 : Handler).key = e.key := by
  intro e he
  have hs := hdisp e he
  cases hb2 : lookupA (mergeInto c.dispatchers_ c.dispatchers_pending_) e.key with
  | none => rw [hb2] at hs; cases hs
  | some b2 =>
    exact ⟨b2, rfl, (merged_bucket_WF _ _ hwf.2 hwf.1 _ _ hb2).2⟩

/-- C8: a weakly-owned member-function subscription whose target object has
    been destroyed is silently skipped at dispatch — the stored closure's
    `w.lock()` fails, the handler body does not run, and the closure returns
    normally with no error — and the worker iteration succeeds while the
    subscription entry stays in the registry afterwards: it is never removed
    automatically and still awaits an explicit unsubscribe. -/
theorem c8_weak_skip (c : channel) (alive : List Nat) (key : List Ty)
    (tag obj fid : Nat) (e : Event)
    (hwf : chanWF c)
    (hreg : c.registeredAt key tag = some ⟨key, fid, HandlerKind.weak obj⟩)
    (hdead : obj ∉ alive)
    (hdisp : ∀ ev ∈ c.events_,
      (lookupA (mergeInto c.dispatchers_ c.dispatchers_pending_) ev.key).isSome = true) :
    runHandler alive tag ⟨key, fid, HandlerKind.weak obj⟩ e = .ok none
    ∧ isOkE (c.processBatch alive) = true
    ∧ (c.afterBatch alive).registeredAt key tag = some ⟨key, fid, HandlerKind.weak obj⟩ := by
  refine ⟨?_, ?_⟩
  · show (if obj ∈ alive then _ else _) = _
    rw [if_neg hdead]
  by_cases hguard : (c.processing_ && !c.events_.isEmpty) = true
  · obtain ⟨hp, hne⟩ := Bool.and_eq_true_iff.mp hguard
    have hnenil : c.events_ ≠ [] := by
      intro hcontra
      rw [hcontra] at hne
      cases hne
    have hseq := sequentialDispatch_ok alive c.events_
      (mergeInto c.dispatchers_ c.dispatchers_pending_) (dispatchable_all c hwf hdisp)
    have hpb := processBatch_run c alive hp hnenil _ hseq
    constructor
    · rw [hpb]
      rfl
    · unfold channel.afterBatch
      rw [hpb]
      exact hreg
  · have hpb : c.processBatch alive = .ok (c, []) := by
      unfold channel.processBatch
      rw [if_neg hguard]
    constructor
    · rw [hpb]
      rfl
    · unfold channel.afterBatch
      rw [hpb]
      exact hreg

/-- The channel of the C8 witness: a weakly-owned subscription on object 8
    (member hash 3, body 1) pending for `(int)`. -/
def c8wit : channel := (mkChannel true).subscribe_weak [ArgTy.plain Ty.int] 8 3 1

theorem c8_witness :
    runHandler [] (make_tag_mem 8 3) ⟨[Ty.int], 1, HandlerKind.weak 8⟩ ⟨[Ty.int], [4]⟩
      = .ok none
    ∧ isOkE (c8wit.processBatch []) = true
    ∧ (c8wit.afterBatch []).registeredAt [Ty.int] (make_tag_mem 8 3)
      = some ⟨[Ty.int], 1, HandlerKind.weak 8⟩ :=
  c8_weak_skip c8wit [] [Ty.int] (make_tag_mem 8 3) 8 1 ⟨[Ty.int], [4]⟩
    (by decide) (by decide) (by decide) (by decide)

/-- C9: a token's captured unsubscribe action runs exactly once.  Starting
    from one token holding action `a`, after any sequence of move
    constructions, move assignments (both `std::swap` the `f_` closures,
    leaving a no-op behind) and destructions, the total number of times `a`
    runs — counting destructors already run plus the live tokens that would
    still run it — is exactly one, so the chain's final owner's destruction
    runs it and no other token ever does; and a token just moved from holds
    the no-op closure. -/
theorem c9_token_once (ops : List TokenOp) (a : Nat) (s : TokenSys) (src : Nat)
    (hsrc : src < s.toks.length) :
    (TokenSys.applyOps ⟨[some a], []⟩ ops).pendingAndFired a = 1
    ∧ (s.applyOp (TokenOp.moveCtor src)).toks[src]? = some none := by
  constructor
  · rw [show TokenSys.applyOps ⟨[some a], []⟩ ops
        = TokenSys.applyOps (TokenSys.mk [some a] []) ops from rfl]
    rw [pendingAndFired_applyOps]
    unfold TokenSys.pendingAndFired
    simp
  · show (swapAt (s.toks ++ [none]) src s.toks.length)[src]? = some none
    unfold swapAt
    have hlen : (s.toks ++ [none]).length = s.toks.length + 1 := by simp
    have hc : src < (s.toks ++ [none]).length
        ∧ s.toks.length < (s.toks ++ [none]).length := by
      rw [hlen]
      exact ⟨Nat.lt_succ_of_lt hsrc, Nat.lt_succ_self _⟩
    rw [dif_pos hc]
    have hne : s.toks.length ≠ src := by omega
    rw [List.getElem?_set_ne hne]
    have hsrc2 : src < ((s.toks ++ [none]).set src
        ((s.toks ++ [none]).get ⟨s.toks.length, hc.2⟩)).length := by
      simpa using hc.1
    rw [List.getElem?_set_self (by simpa using hc.1)]
    have hgl : (s.toks ++ [none]).get ⟨s.toks.length, hc.2⟩ = none := by
      rw [List.get_eq_getElem]
      have := List.getElem?_concat_length s.toks (none : Option Nat)
      rw [List.getElem?_eq_getElem hc.2] at this
      injection this
    rw [hgl]

theorem c9_witness :
    (TokenSys.applyOps ⟨[some 7], []⟩
      [TokenOp.moveCtor 0, TokenOp.moveAssign 0 1, TokenOp.destroy 1,
        TokenOp.destroy 0]).pendingAndFired 7 = 1
    ∧ ((TokenSys.mk [some 7, none] []).applyOp (TokenOp.moveCtor 0)).toks[0]?
      = some none :=
  c9_token_once [TokenOp.moveCtor 0, TokenOp.moveAssign 0 1, TokenOp.destroy 1,
    TokenOp.destroy 0] 7 ⟨[some 7, none], []⟩ 0 (by decide)

/-- C10: `stop()` unconditionally joins the worker thread.  On a channel
    whose worker thread is joinable (Running), `stop` succeeds and leaves
    the thread non-joinable; a second `stop` without an intervening
    `start()` — the destructor's implicit `stop()` after an explicit one
    included — calls `join()` on the non-joinable thread and faults
    (`std::system_error`) instead of being a no-op. -/
theorem c10_double_stop (c c2 : channel) (hj : c.threadJoinable = true)
    (hstop : c.stop = .ok c2) :
    c2.threadJoinable = false ∧ c2.stop = .error .joinNotJoinable := by
  have h1 : c.stop = .ok { c with
      events_ := if c.idleKeep then c.events_ else [],
      processing_ := false,
      threadJoinable := false } := by
    unfold channel.stop
    rw [if_pos hj]
  rw [h1] at hstop
  injection hstop with h2
  subst h2
  constructor
  · rfl
  · unfold channel.stop
    rw [if_neg (by simp)]

theorem c10_witness :
    (channel.mk false false true 0 [] [] []).threadJoinable = false
    ∧ (channel.mk false false true 0 [] [] []).stop = .error .joinNotJoinable :=
  c10_double_stop (mkChannel true) (channel.mk false false true 0 [] [] [])
    (by decide) (by decide)

end EventChannel



